import Mathlib

/-!
Shallow embedding of `rust/core-lib/src/movement.rs` (xi-editor movement
engine) and proofs of the specification claims about it.

The rope, view, word-boundary and selection-container collaborators are
external to this module; they are embedded as structures of abstract query
functions, with their contracts appearing as hypotheses of the theorems.
Concrete executable instances (built from a `List Char`, one grapheme per
character, lines separated by a newline character) are provided so that every
theorem with hypotheses has an evaluated witness.
-/

set_option autoImplicit false

/-- Maximum value of the 64-bit `usize` type. -/
def usizeMax : Nat := 2 ^ 64 - 1

/-- Rust `usize::saturating_add` on the mathematical naturals: the sum,
clamped to `usizeMax`. -/
def saturating_add (a b : Nat) : Nat := Nat.min (a + b) usizeMax

/-- A visual column (`HorizPos` in `selection.rs`). -/
abbrev HorizPos := Nat

/-- Modelled from the spec: caret affinity at a line-wrap boundary, an
external type from `selection.rs` (not part of this module's source); the
orchestrator only ever uses its default value. -/
inductive Affinity where
  | Upstream
  | Downstream
deriving DecidableEq, Repr

instance : Inhabited Affinity := ⟨Affinity.Downstream⟩

/-- Modelled from the spec: one selection region from `selection.rs`
(external to this module): anchor `start`, active point `end`, optional
cached visual column `horiz`, and `affinity`. -/
structure SelRegion where
  start : Nat
  «end» : Nat
  horiz : Option HorizPos
  affinity : Affinity
deriving DecidableEq, Repr

/-- Modelled from the spec: `SelRegion::is_caret`, true when anchor and
active point coincide. -/
def SelRegion.is_caret (r : SelRegion) : Bool := r.start == r.«end»

/-- Modelled from the spec: `SelRegion::min`, the smaller endpoint. -/
def SelRegion.min (r : SelRegion) : Nat := Nat.min r.start r.«end»

/-- Modelled from the spec: `SelRegion::max`, the larger endpoint. -/
def SelRegion.max (r : SelRegion) : Nat := Nat.max r.start r.«end»

/-- Modelled from the spec: the external text buffer (`xi_rope::Rope`)
together with its traversal primitives, embedded as abstract query
functions.  `prev_line_boundary o` / `next_line_boundary o` give the result
of `Cursor::new(text, o).prev::<LinesMetric>()` / `.next::<LinesMetric>()`,
and `is_line_boundary p` the result of `cursor.is_boundary::<LinesMetric>()`
at position `p`; `word_prev_boundary o` / `word_next_boundary o` give
`WordCursor::new(text, o).prev_boundary()` / `.next_boundary()`. -/
structure Rope where
  len : Nat
  prev_grapheme_offset : Nat → Option Nat
  next_grapheme_offset : Nat → Option Nat
  prev_line_boundary : Nat → Option Nat
  next_line_boundary : Nat → Option Nat
  is_line_boundary : Nat → Bool
  word_prev_boundary : Nat → Option Nat
  word_next_boundary : Nat → Option Nat

/-- Modelled from the spec: the external view layer's line/column/offset
mappings and viewport height (`view.rs`); `scroll_height` is the raw
viewport height in lines returned by `View::scroll_height()`. -/
structure View where
  offset_to_line_col : Rope → Nat → Nat × Nat
  line_of_offset : Rope → Nat → Nat
  offset_of_line : Rope → Nat → Nat
  line_col_to_offset : Rope → Nat → Nat → Nat
  scroll_height : Nat

/-- The specification of a movement (`enum Movement`). -/
inductive Movement where
  | Left
  | Right
  | LeftWord
  | RightWord
  | LeftOfLine
  | RightOfLine
  | Up
  | Down
  | UpPage
  | DownPage
  | StartOfParagraph
  | EndOfParagraph
  | StartOfDocument
  | EndOfDocument
deriving DecidableEq, Repr

/-- Calculate a horizontal position in the view, based on the offset
(`calc_horiz`). -/
def calc_horiz (view : View) (text : Rope) (offset : Nat) : Nat × Option HorizPos :=
  (offset, some (view.offset_to_line_col text offset).2)

/-- The active point of the selection in `vertical_motion`: `end` when
modifying, else the min endpoint when moving up and the max endpoint when
moving down. -/
def active_point (r : SelRegion) (line_delta : Int) (modify : Bool) : Nat :=
  if modify then r.«end»
  else if line_delta < 0 then r.min
  else r.max

/-- The column used by `vertical_motion`: the cached `horiz` when present,
else the column resolved from the active point. -/
def vm_col (r : SelRegion) (view : View) (text : Rope) (active : Nat) : Nat :=
  match r.horiz with
  | some col => col
  | none => (view.offset_to_line_col text active).2

/-- Compute movement based on vertical motion by the given number of lines
(`vertical_motion`).  `line_delta` is the Rust `isize` argument; the
`(-line_delta).toNat` guard and `saturating_add` mirror the source's
explicit protection of the `usize` line arithmetic. -/
def vertical_motion (r : SelRegion) (view : View) (text : Rope) (line_delta : Int)
    (modify : Bool) : Nat × Option HorizPos :=
  let active := active_point r line_delta modify
  let col := vm_col r view text active
  let line := view.line_of_offset text active
  if line_delta < 0 ∧ (-line_delta).toNat > line then
    (0, some col)
  else
    let line' := if line_delta < 0 then line - (-line_delta).toNat
      else saturating_add line line_delta.toNat
    let n_lines := view.line_of_offset text text.len
    if line' > n_lines then
      (text.len, some col)
    else
      let new_offset := view.line_col_to_offset text line' col
      if new_offset = active then
        calc_horiz view text new_offset
      else
        (new_offset, some col)

/-- Computes the actual desired amount of scrolling (`scroll_height`):
the viewport height less two, but at least one. -/
def scroll_height (view : View) : Int :=
  max ((view.scroll_height : Int) - 2) 1

/-- Compute the result of movement on one selection region
(`region_movement`). -/
def region_movement (m : Movement) (r : SelRegion) (view : View) (text : Rope)
    (modify : Bool) : Nat × Option HorizPos :=
  match m with
  | .Left =>
    if r.is_caret || modify then
      match text.prev_grapheme_offset r.«end» with
      | some offset => calc_horiz view text offset
      | none => (0, r.horiz)
    else
      calc_horiz view text r.min
  | .Right =>
    if r.is_caret || modify then
      match text.next_grapheme_offset r.«end» with
      | some offset => calc_horiz view text offset
      | none => (r.«end», r.horiz)
    else
      calc_horiz view text r.max
  | .LeftWord =>
    let offset := (text.word_prev_boundary r.«end»).getD 0
    calc_horiz view text offset
  | .RightWord =>
    let offset := (text.word_next_boundary r.«end»).getD text.len
    calc_horiz view text offset
  | .LeftOfLine =>
    let line := view.line_of_offset text r.«end»
    let offset := view.offset_of_line text line
    calc_horiz view text offset
  | .RightOfLine =>
    let line := view.line_of_offset text r.«end»
    let offset := text.len
    let next_line_offset := view.offset_of_line text (line + 1)
    let offset' := if line < view.line_of_offset text offset then
        match text.prev_grapheme_offset next_line_offset with
        | some prev => prev
        | none => offset
      else offset
    calc_horiz view text offset'
  | .Up => vertical_motion r view text (-1) modify
  | .Down => vertical_motion r view text 1 modify
  | .StartOfParagraph =>
    let offset := (text.prev_line_boundary r.«end»).getD 0
    calc_horiz view text offset
  | .EndOfParagraph =>
    let offset := r.«end»
    let offset' := match text.next_line_boundary r.«end» with
      | some next_para_offset =>
        if text.is_line_boundary next_para_offset then
          match text.prev_grapheme_offset next_para_offset with
          | some eol => eol
          | none => offset
        else offset
      | none => offset
    calc_horiz view text offset'
  | .UpPage => vertical_motion r view text (-(scroll_height view)) modify
  | .DownPage => vertical_motion r view text (scroll_height view) modify
  | .StartOfDocument => calc_horiz view text 0
  | .EndOfDocument => calc_horiz view text text.len

/-- Modelled from the spec: the external selection container, reduced to the
two operations this module uses — `Selection::new()` and
`Selection::add_region` (whose merge policy the container alone owns). -/
structure SelContainer (σ : Type) where
  new : σ
  add_region : σ → SelRegion → σ

/-- Compute a new selection by applying a movement to an existing selection
(`selection_movement`).  The input selection is its ordered list of regions;
the output is assembled by the container's `add_region`, exactly as the
source's loop does. -/
def selection_movement {σ : Type} (c : SelContainer σ) (m : Movement)
    (s : List SelRegion) (view : View) (text : Rope) (modify : Bool) : σ :=
  s.foldl (fun result r =>
    let p := region_movement m r view text modify
    c.add_region result
      { start := if modify then r.start else p.1
        «end» := p.1
        horiz := p.2
        affinity := default }) c.new

/-- A transparent container instance that records the regions handed to
`add_region` in order, for observing the orchestrator's output. -/
def listContainer : SelContainer (List SelRegion) :=
  { new := [], add_region := fun l r => l ++ [r] }

/-! ### Concrete collaborator instances built from a list of characters

One grapheme per character, text lines separated by a newline character, no
soft wrapping (visual lines coincide with text lines).  These instances
satisfy the collaborator contracts assumed by the theorems and are used to
produce evaluated witnesses and counterexamples. -/

/-- Whether `p` is a line boundary of `cs`: a position just after a newline. -/
def isLineB (cs : List Char) (p : Nat) : Bool :=
  decide (1 ≤ p) && decide (p ≤ cs.length) && (cs.getD (p - 1) 'x' == '\n')

/-- All line-boundary positions of `cs`, in increasing order. -/
def strBoundaries (cs : List Char) : List Nat :=
  (List.range (cs.length + 1)).filter (isLineB cs)

/-- Previous grapheme boundary: one character back. -/
def strPrevGrapheme (cs : List Char) (o : Nat) : Option Nat :=
  if 0 < o ∧ o ≤ cs.length then some (o - 1) else none

/-- Next grapheme boundary: one character forward. -/
def strNextGrapheme (cs : List Char) (o : Nat) : Option Nat :=
  if o < cs.length then some (o + 1) else none

/-- Previous line boundary strictly before `o` (`Cursor::prev::<LinesMetric>`). -/
def strPrevLineB (cs : List Char) (o : Nat) : Option Nat :=
  (List.range o).reverse.find? (isLineB cs)

/-- Forward line-boundary search from `o` (`Cursor::next::<LinesMetric>`):
the least boundary strictly after `o`, else the end of the text when the
cursor is not already there (the cursor runs off the rope without finding a
boundary), else nothing. -/
def strNextLineB (cs : List Char) (o : Nat) : Option Nat :=
  if cs.length ≤ o then none
  else match (List.range (cs.length + 1)).find? (fun p => decide (o < p) && isLineB cs p) with
    | some p => some p
    | none => some cs.length

/-- One-word segmentation: the only word boundaries are the document edges. -/
def strWordPrev (_cs : List Char) (o : Nat) : Option Nat :=
  if o = 0 then none else some 0

/-- One-word segmentation, forward direction. -/
def strWordNext (cs : List Char) (o : Nat) : Option Nat :=
  if o < cs.length then some cs.length else none

/-- The concrete rope over `cs`. -/
def strRope (cs : List Char) : Rope :=
  { len := cs.length
    prev_grapheme_offset := strPrevGrapheme cs
    next_grapheme_offset := strNextGrapheme cs
    prev_line_boundary := strPrevLineB cs
    next_line_boundary := strNextLineB cs
    is_line_boundary := isLineB cs
    word_prev_boundary := strWordPrev cs
    word_next_boundary := strWordNext cs }

/-- Line number of an offset: newlines before it (input clamped by `take`). -/
def strLineOfOffset (cs : List Char) (o : Nat) : Nat :=
  ((cs.take o).filter (fun c => c == '\n')).length

/-- Start offset of a line, clamped to the text length for out-of-range
lines. -/
def strOffsetOfLine (cs : List Char) (l : Nat) : Nat :=
  if l = 0 then 0 else ((strBoundaries cs).get? (l - 1)).getD cs.length

/-- Last position of line `l` before its terminator (the text end on the
last line). -/
def strLineEnd (cs : List Char) (l : Nat) : Nat :=
  if l < strLineOfOffset cs cs.length then strOffsetOfLine cs (l + 1) - 1
  else cs.length

/-- Map (line, column) to an offset, clamping the column into the line. -/
def strLineColToOffset (cs : List Char) (l : Nat) (c : Nat) : Nat :=
  Nat.min (strOffsetOfLine cs l + c) (strLineEnd cs l)

/-- Map an offset to its (line, column) pair, clamping into the text. -/
def strOffsetToLineCol (cs : List Char) (o : Nat) : Nat × Nat :=
  let o' := Nat.min o cs.length
  let l := strLineOfOffset cs o'
  (l, o' - strOffsetOfLine cs l)

/-- The concrete view over `cs` with viewport height `h`. -/
def strView (cs : List Char) (h : Nat) : View :=
  { offset_to_line_col := fun _ o => strOffsetToLineCol cs o
    line_of_offset := fun _ o => strLineOfOffset cs o
    offset_of_line := fun _ l => strOffsetOfLine cs l
    line_col_to_offset := fun _ l c => strLineColToOffset cs l c
    scroll_height := h }

/-! ### Contract lemmas for the concrete instances -/

theorem isLineB_le {cs : List Char} {p : Nat} (h : isLineB cs p = true) :
    p ≤ cs.length := by
  simp only [isLineB, Bool.and_eq_true, decide_eq_true_eq] at h
  exact h.1.2

theorem strPrevGrapheme_le {cs : List Char} {o p : Nat}
    (h : strPrevGrapheme cs o = some p) : p ≤ cs.length := by
  simp only [strPrevGrapheme] at h
  split at h
  · rename_i hc
    cases h
    exact Nat.le_trans (Nat.sub_le _ _) hc.2
  · cases h

theorem strNextGrapheme_le {cs : List Char} {o p : Nat}
    (h : strNextGrapheme cs o = some p) : p ≤ cs.length := by
  simp only [strNextGrapheme] at h
  split at h
  · rename_i hc
    cases h
    exact hc
  · cases h

theorem strPrevLineB_le {cs : List Char} {o p : Nat}
    (h : strPrevLineB cs o = some p) : p ≤ cs.length :=
  isLineB_le (List.find?_some h)

theorem strWordPrev_le {cs : List Char} {o p : Nat}
    (h : strWordPrev cs o = some p) : p ≤ cs.length := by
  simp only [strWordPrev] at h
  split at h
  · cases h
  · cases h
    exact Nat.zero_le _

theorem strWordNext_le {cs : List Char} {o p : Nat}
    (h : strWordNext cs o = some p) : p ≤ cs.length := by
  simp only [strWordNext] at h
  split at h
  · cases h
    exact Nat.le_refl _
  · cases h

theorem strOffsetOfLine_le (cs : List Char) (l : Nat) :
    strOffsetOfLine cs l ≤ cs.length := by
  unfold strOffsetOfLine
  split
  · exact Nat.zero_le _
  · cases hg : (strBoundaries cs).get? (l - 1) with
    | none => simp [hg]
    | some x =>
      have hmem : x ∈ strBoundaries cs := List.get?_mem hg
      have hx : isLineB cs x = true := (List.mem_filter.mp hmem).2
      simp [hg, isLineB_le hx]

theorem strLineEnd_le (cs : List Char) (l : Nat) : strLineEnd cs l ≤ cs.length := by
  unfold strLineEnd
  split
  · exact Nat.le_trans (Nat.sub_le _ _) (strOffsetOfLine_le cs (l + 1))
  · exact Nat.le_refl _

theorem strLineColToOffset_le (cs : List Char) (l c : Nat) :
    strLineColToOffset cs l c ≤ cs.length :=
  Nat.le_trans (Nat.min_le_right _ _) (strLineEnd_le cs l)

/-! ### Shared helper lemmas -/

/-- The offset produced by `vertical_motion` never exceeds the text length,
given that the view's line/column-to-offset mapping is clamped. -/
theorem vertical_motion_le (r : SelRegion) (view : View) (text : Rope) (d : Int)
    (modify : Bool)
    (hlco : ∀ l c, view.line_col_to_offset text l c ≤ text.len) :
    (vertical_motion r view text d modify).1 ≤ text.len := by
  simp only [vertical_motion, calc_horiz]
  split
  · exact Nat.zero_le _
  · split <;> split <;>
      first
        | exact Nat.le_refl _
        | (split <;> exact hlco _ _)

/-- The offset produced by `region_movement` never exceeds the text length,
given valid region endpoints and the collaborator contracts. -/
theorem region_movement_le (m : Movement) (r : SelRegion) (view : View)
    (text : Rope) (modify : Bool)
    (hstart : r.start ≤ text.len) (hend : r.«end» ≤ text.len)
    (hprev : ∀ o p, text.prev_grapheme_offset o = some p → p ≤ text.len)
    (hnext : ∀ o p, text.next_grapheme_offset o = some p → p ≤ text.len)
    (hwprev : ∀ o p, text.word_prev_boundary o = some p → p ≤ text.len)
    (hwnext : ∀ o p, text.word_next_boundary o = some p → p ≤ text.len)
    (hplb : ∀ o p, text.prev_line_boundary o = some p → p ≤ text.len)
    (hool : ∀ l, view.offset_of_line text l ≤ text.len)
    (hlco : ∀ l c, view.line_col_to_offset text l c ≤ text.len) :
    (region_movement m r view text modify).1 ≤ text.len := by
  cases m with
  | Left =>
    simp only [region_movement, calc_horiz]
    split
    · cases hp : text.prev_grapheme_offset r.«end» with
      | some p => exact hprev _ _ hp
      | none => exact Nat.zero_le _
    · exact Nat.le_trans (Nat.min_le_right _ _) hend
  | Right =>
    simp only [region_movement, calc_horiz]
    split
    · cases hp : text.next_grapheme_offset r.«end» with
      | some p => exact hnext _ _ hp
      | none => exact hend
    · exact Nat.max_le.mpr ⟨hstart, hend⟩
  | LeftWord =>
    simp only [region_movement, calc_horiz]
    cases hp : text.word_prev_boundary r.«end» with
    | some p => exact hwprev _ _ hp
    | none => exact Nat.zero_le _
  | RightWord =>
    simp only [region_movement, calc_horiz]
    cases hp : text.word_next_boundary r.«end» with
    | some p => exact hwnext _ _ hp
    | none => exact Nat.le_refl _
  | LeftOfLine =>
    simp only [region_movement, calc_horiz]
    exact hool _
  | RightOfLine =>
    simp only [region_movement, calc_horiz]
    split
    · cases hp : text.prev_grapheme_offset (view.offset_of_line text
        (view.line_of_offset text r.«end» + 1)) with
      | some p => exact hprev _ _ hp
      | none => exact Nat.le_refl _
    · exact Nat.le_refl _
  | Up => exact vertical_motion_le r view text (-1) modify hlco
  | Down => exact vertical_motion_le r view text 1 modify hlco
  | UpPage => exact vertical_motion_le r view text (-(scroll_height view)) modify hlco
  | DownPage => exact vertical_motion_le r view text (scroll_height view) modify hlco
  | StartOfParagraph =>
    simp only [region_movement, calc_horiz]
    cases hp : text.prev_line_boundary r.«end» with
    | some p => exact hplb _ _ hp
    | none => exact Nat.zero_le _
  | EndOfParagraph =>
    simp only [region_movement, calc_horiz]
    cases hp : text.next_line_boundary r.«end» with
    | some p =>
      dsimp only
      split
      · cases he : text.prev_grapheme_offset p with
        | some e => exact hprev _ _ he
        | none => exact hend
      · exact hend
    | none => exact hend
  | StartOfDocument =>
    simp only [region_movement, calc_horiz]
    exact Nat.zero_le _
  | EndOfDocument =>
    simp only [region_movement, calc_horiz]
    exact Nat.le_refl _

/-- Unrolling the orchestrator over the transparent list container: the
output is the input's regions mapped through the per-region construction. -/
theorem selection_movement_listContainer (m : Movement) (s : List SelRegion)
    (view : View) (text : Rope) (modify : Bool) :
    selection_movement listContainer m s view text modify =
      s.map (fun r =>
        { start := if modify then r.start else (region_movement m r view text modify).1
          «end» := (region_movement m r view text modify).1
          horiz := (region_movement m r view text modify).2
          affinity := default }) := by
  have haux : ∀ (t : List SelRegion) (acc : List SelRegion),
      List.foldl (fun result r =>
        let p := region_movement m r view text modify
        listContainer.add_region result
          { start := if modify then r.start else p.1
            «end» := p.1
            horiz := p.2
            affinity := default }) acc t =
      acc ++ t.map (fun r =>
        { start := if modify then r.start else (region_movement m r view text modify).1
          «end» := (region_movement m r view text modify).1
          horiz := (region_movement m r view text modify).2
          affinity := default }) := by
    intro t
    induction t with
    | nil => intro acc; simp
    | cons r t ih =>
      intro acc
      rw [List.foldl_cons, List.map_cons, ih]
      simp [listContainer]
  exact haux s []

/-! ### Concrete documents used by witnesses and counterexamples -/

/-- The two-line demo document of the spec. -/
def hwChars : List Char := "hello\nworld".data

/-- A one-line two-character document. -/
def abChars : List Char := "ab".data

/-- Two empty lines: two newline characters. -/
def nlnlChars : List Char := "\n\n".data

/-- One line of eight characters. -/
def wideChars : List Char := "abcdefgh".data

/-- Four lines, the third shorter than the caret column used in the
stickiness witness. -/
def stickyChars : List Char := "aa\nbbbb\nc\ndddd".data

/-- Twenty lines of two characters each. -/
def page20Chars : List Char :=
  "ab\nab\nab\nab\nab\nab\nab\nab\nab\nab\nab\nab\nab\nab\nab\nab\nab\nab\nab\nab".data

/-! ### Claim theorems -/

/-- Claim C1: for every Movement variant, every selection region, and the
modify flag set either way, the offset computed by `region_movement` — and
hence the `end` of every region in the selection returned by
`selection_movement` — lies within `[0, text.len]`, assuming the
collaborator contracts (grapheme/word/line queries return valid offsets,
view mappings clamp out-of-range inputs) and valid region endpoints. -/
theorem C1_offset_in_bounds (m : Movement) (r : SelRegion) (view : View)
    (text : Rope) (modify : Bool)
    (hstart : r.start ≤ text.len) (hend : r.«end» ≤ text.len)
    (hprev : ∀ o p, text.prev_grapheme_offset o = some p → p ≤ text.len)
    (hnext : ∀ o p, text.next_grapheme_offset o = some p → p ≤ text.len)
    (hwprev : ∀ o p, text.word_prev_boundary o = some p → p ≤ text.len)
    (hwnext : ∀ o p, text.word_next_boundary o = some p → p ≤ text.len)
    (hplb : ∀ o p, text.prev_line_boundary o = some p → p ≤ text.len)
    (hool : ∀ l, view.offset_of_line text l ≤ text.len)
    (hlco : ∀ l c, view.line_col_to_offset text l c ≤ text.len) :
    (region_movement m r view text modify).1 ≤ text.len ∧
    ∀ s : List SelRegion,
      (∀ q ∈ s, q.start ≤ text.len ∧ q.«end» ≤ text.len) →
      ∀ reg ∈ selection_movement listContainer m s view text modify,
        reg.«end» ≤ text.len := by
  refine ⟨region_movement_le m r view text modify hstart hend hprev hnext
    hwprev hwnext hplb hool hlco, ?_⟩
  intro s hs reg hreg
  rw [selection_movement_listContainer] at hreg
  obtain ⟨q, hq, rfl⟩ := List.mem_map.mp hreg
  exact region_movement_le m q view text modify (hs q hq).1 (hs q hq).2
    hprev hnext hwprev hwnext hplb hool hlco

/-- Witness for C1: a concrete region on the spec's two-line document. -/
theorem C1_offset_in_bounds_witness :
    (region_movement Movement.Left ⟨2, 7, none, Affinity.Downstream⟩
      (strView hwChars 10) (strRope hwChars) false).1 ≤ (strRope hwChars).len :=
  (C1_offset_in_bounds Movement.Left ⟨2, 7, none, Affinity.Downstream⟩
    (strView hwChars 10) (strRope hwChars) false
    (by decide) (by decide)
    (fun _ _ h => strPrevGrapheme_le h) (fun _ _ h => strNextGrapheme_le h)
    (fun _ _ h => strWordPrev_le h) (fun _ _ h => strWordNext_le h)
    (fun _ _ h => strPrevLineB_le h)
    (fun l => strOffsetOfLine_le hwChars l)
    (fun l c => strLineColToOffset_le hwChars l c)).1

/-- Claim C4: in `vertical_motion`, for every region, line delta and modify
flag: an upward delta whose magnitude exceeds the active point's line number
yields `(0, column unchanged)` with no unsigned underflow (when the guard
does not fire the subtraction is exact); downward motion computes the target
line with saturating addition; and a target line beyond the document's last
line yields `(text.len, column unchanged)`. -/
theorem C4_vertical_clamps (r : SelRegion) (view : View) (text : Rope)
    (d : Int) (modify : Bool) :
    (d < 0 → view.line_of_offset text (active_point r d modify) < (-d).toNat →
      vertical_motion r view text d modify =
        (0, some (vm_col r view text (active_point r d modify)))) ∧
    (d < 0 → (-d).toNat ≤ view.line_of_offset text (active_point r d modify) →
      view.line_of_offset text (active_point r d modify) - (-d).toNat + (-d).toNat =
        view.line_of_offset text (active_point r d modify)) ∧
    (¬ (d < 0 ∧ (-d).toNat > view.line_of_offset text (active_point r d modify)) →
      (if d < 0 then view.line_of_offset text (active_point r d modify) - (-d).toNat
        else saturating_add (view.line_of_offset text (active_point r d modify)) d.toNat) >
          view.line_of_offset text text.len →
      vertical_motion r view text d modify =
        (text.len, some (vm_col r view text (active_point r d modify)))) := by
  refine ⟨?_, ?_, ?_⟩
  · intro hd hlt
    simp only [vertical_motion]
    rw [if_pos ⟨hd, hlt⟩]
  · intro _ hle
    exact Nat.sub_add_cancel hle
  · intro hng hgt
    simp only [vertical_motion]
    rw [if_neg hng, if_pos hgt]

/-- Witness for C4: moving up five lines from the top of the two-line
document clamps to offset 0 and keeps the cached column. -/
theorem C4_vertical_clamps_witness :
    vertical_motion ⟨0, 0, some 3, Affinity.Downstream⟩ (strView hwChars 10)
      (strRope hwChars) (-5) false = (0, some 3) :=
  (C4_vertical_clamps ⟨0, 0, some 3, Affinity.Downstream⟩ (strView hwChars 10)
    (strRope hwChars) (-5) false).1 (by decide) (by decide)

/-- Counterexample to claim C2: Up from a caret at offset 0 on the first
line with a stale cached column 5 returns `(0, some 5)` — the cached column
passed through — whereas the position resolver at offset 0 yields column 0,
so the returned column is not recomputed fresh from the result offset. -/
theorem C2_counterexample :
    region_movement Movement.Up ⟨0, 0, some 5, Affinity.Downstream⟩
        (strView abChars 10) (strRope abChars) false = (0, some 5) ∧
    calc_horiz (strView abChars 10) (strRope abChars) 0 = (0, some 0) ∧
    region_movement Movement.Up ⟨0, 0, some 5, Affinity.Downstream⟩
        (strView abChars 10) (strRope abChars) false ≠
      calc_horiz (strView abChars 10) (strRope abChars) 0 := by
  refine ⟨by decide, by decide, by decide⟩

/-- Claim C2 as amended: when vertical motion is a clamp no-op — any
negative delta from a caret at offset 0 on the first line, or any positive
delta from a caret at the document length, with modify false — the result
offset equals the original offset and no underflow or overflow occurs, and
the returned column is the effective column (the cached one when present,
else the one resolved from the active point) passed through unchanged, not
recomputed from the clamped offset. -/
theorem C2_no_op_keeps_cached_column (r : SelRegion) (view : View)
    (text : Rope) (d : Int) :
    (r.start = 0 → r.«end» = 0 → view.line_of_offset text 0 = 0 → d < 0 →
      vertical_motion r view text d false = (0, some (vm_col r view text 0))) ∧
    (r.start = text.len → r.«end» = text.len →
      view.line_of_offset text text.len < usizeMax → 0 < d →
      vertical_motion r view text d false =
        (text.len, some (vm_col r view text text.len))) := by
  constructor
  · intro hs he hl0 hd
    have ha : active_point r d false = 0 := by
      simp [active_point, hd, SelRegion.min, hs, he]
    have hpos : 0 < (-d).toNat := by omega
    simp only [vertical_motion, ha, hl0]
    rw [if_pos ⟨hd, hpos⟩]
  · intro hs he hnl hd
    have hd' : ¬ d < 0 := by omega
    have ha : active_point r d false = text.len := by
      simp [active_point, hd', SelRegion.max, hs, he]
    have hsat : view.line_of_offset text text.len <
        saturating_add (view.line_of_offset text text.len) d.toNat := by
      have h1 : 0 < d.toNat := by omega
      simp only [saturating_add]
      exact Nat.lt_min.mpr ⟨by omega, hnl⟩
    simp only [vertical_motion, ha]
    rw [if_neg (by exact fun hc => hd' hc.1)]
    rw [if_neg hd', if_pos hsat]

/-- Witness for the amended C2: the counterexample configuration, and Down
by ten lines from the end of the two-line document. -/
theorem C2_no_op_keeps_cached_column_witness :
    vertical_motion ⟨11, 11, some 7, Affinity.Downstream⟩ (strView hwChars 10)
      (strRope hwChars) 10 false = (11, some 7) :=
  (C2_no_op_keeps_cached_column ⟨11, 11, some 7, Affinity.Downstream⟩
    (strView hwChars 10) (strRope hwChars) 10).2
    (by decide) (by decide) (by decide) (by decide)

/-- Counterexample to claim C3: in the document of two newline characters,
with the region end at offset 1, a line boundary (offset 2) exists strictly
after the region end, yet EndOfParagraph returns offset 1, which is itself
exactly a line-boundary position. -/
theorem C3_counterexample :
    (strRope nlnlChars).next_line_boundary 1 = some 2 ∧
    (strRope nlnlChars).is_line_boundary 2 = true ∧
    (region_movement Movement.EndOfParagraph ⟨1, 1, none, Affinity.Downstream⟩
      (strView nlnlChars 10) (strRope nlnlChars) false).1 = 1 ∧
    (strRope nlnlChars).is_line_boundary 1 = true := by
  refine ⟨by decide, by decide, by decide, by decide⟩

/-- Claim C3 as amended: for every region and text, if the position found by
the forward line-boundary search from `region.end` is on a boundary and has
an earlier grapheme boundary, EndOfParagraph returns that position stepped
back by one grapheme — an offset that may itself be a line-boundary position
when the line is empty; if the search finds nothing, lands on a non-boundary
position, or no earlier grapheme exists, the result is `region.end`
unchanged. -/
theorem C3_end_of_paragraph (r : SelRegion) (view : View) (text : Rope)
    (modify : Bool) :
    (∀ p e, text.next_line_boundary r.«end» = some p →
      text.is_line_boundary p = true → text.prev_grapheme_offset p = some e →
      (region_movement Movement.EndOfParagraph r view text modify).1 = e) ∧
    (text.next_line_boundary r.«end» = none →
      (region_movement Movement.EndOfParagraph r view text modify).1 = r.«end») ∧
    (∀ p, text.next_line_boundary r.«end» = some p →
      text.is_line_boundary p = false →
      (region_movement Movement.EndOfParagraph r view text modify).1 = r.«end») ∧
    (∀ p, text.next_line_boundary r.«end» = some p →
      text.is_line_boundary p = true → text.prev_grapheme_offset p = none →
      (region_movement Movement.EndOfParagraph r view text modify).1 = r.«end») := by
  refine ⟨?_, ?_, ?_, ?_⟩
  · intro p e hp hb he
    simp only [region_movement, calc_horiz]
    rw [hp]
    dsimp only
    rw [if_pos hb, he]
  · intro hp
    simp only [region_movement, calc_horiz]
    rw [hp]
  · intro p hp hb
    simp only [region_movement, calc_horiz]
    rw [hp]
    dsimp only
    rw [if_neg (by simp [hb])]
  · intro p hp hb he
    simp only [region_movement, calc_horiz]
    rw [hp]
    dsimp only
    rw [if_pos hb, he]

/-- Witness for the amended C3: EndOfParagraph from offset 2 in the two-line
document lands one grapheme before the line boundary at offset 6. -/
theorem C3_end_of_paragraph_witness :
    (region_movement Movement.EndOfParagraph ⟨2, 2, none, Affinity.Downstream⟩
      (strView hwChars 10) (strRope hwChars) false).1 = 5 :=
  (C3_end_of_paragraph ⟨2, 2, none, Affinity.Downstream⟩ (strView hwChars 10)
    (strRope hwChars) false).1 6 5 (by decide) (by decide) (by decide)

/-- Claim C5: for Left (and symmetrically Right): on a caret or when
modifying, the result is one grapheme backward (forward) from `region.end`
via `calc_horiz`, and when no earlier (later) grapheme boundary exists the
result is offset 0 (`region.end`) with the cached column passed through
unchanged; a non-empty non-modifying selection collapses exactly to its min
(max) endpoint with no extra grapheme step. -/
theorem C5_left_right (r : SelRegion) (view : View) (text : Rope)
    (modify : Bool) :
    ((r.is_caret = true ∨ modify = true) →
      (∀ p, text.prev_grapheme_offset r.«end» = some p →
        region_movement Movement.Left r view text modify = calc_horiz view text p) ∧
      (text.prev_grapheme_offset r.«end» = none →
        region_movement Movement.Left r view text modify = (0, r.horiz))) ∧
    (r.is_caret = false → modify = false →
      region_movement Movement.Left r view text modify = calc_horiz view text r.min) ∧
    ((r.is_caret = true ∨ modify = true) →
      (∀ p, text.next_grapheme_offset r.«end» = some p →
        region_movement Movement.Right r view text modify = calc_horiz view text p) ∧
      (text.next_grapheme_offset r.«end» = none →
        region_movement Movement.Right r view text modify = (r.«end», r.horiz))) ∧
    (r.is_caret = false → modify = false →
      region_movement Movement.Right r view text modify = calc_horiz view text r.max) := by
  refine ⟨?_, ?_, ?_, ?_⟩
  · intro h
    have hc : (r.is_caret || modify) = true := by
      rcases h with h | h <;> simp [h]
    constructor
    · intro p hp
      simp only [region_movement]
      rw [if_pos hc, hp]
    · intro hp
      simp only [region_movement]
      rw [if_pos hc, hp]
  · intro hc hm
    have hn : ¬ (r.is_caret || modify) = true := by simp [hc, hm]
    simp only [region_movement]
    rw [if_neg hn]
  · intro h
    have hc : (r.is_caret || modify) = true := by
      rcases h with h | h <;> simp [h]
    constructor
    · intro p hp
      simp only [region_movement]
      rw [if_pos hc, hp]
    · intro hp
      simp only [region_movement]
      rw [if_pos hc, hp]
  · intro hc hm
    have hn : ¬ (r.is_caret || modify) = true := by simp [hc, hm]
    simp only [region_movement]
    rw [if_neg hn]

/-- Witness for C5: the spec's example — Left with modify false on region
[2,7) of a one-line document yields a caret exactly at offset 2. -/
theorem C5_left_right_witness :
    region_movement Movement.Left ⟨2, 7, none, Affinity.Downstream⟩
        (strView wideChars 10) (strRope wideChars) false =
      calc_horiz (strView wideChars 10) (strRope wideChars)
        (SelRegion.min ⟨2, 7, none, Affinity.Downstream⟩) :=
  (C5_left_right ⟨2, 7, none, Affinity.Downstream⟩ (strView wideChars 10)
    (strRope wideChars) false).2.1 (by decide) rfl

/-- Claim C6: for every region of the input selection the orchestrator
builds the output region with `end` = the dispatcher's offset always,
`start` = the original start when modifying and that offset otherwise,
`horiz` = the dispatcher's column, and `affinity` reset to its default; in
particular modify-true Left on a caret at O with an earlier grapheme
boundary p yields the region with start O and end p. -/
theorem C6_region_construction (m : Movement) (s : List SelRegion)
    (view : View) (text : Rope) (modify : Bool) :
    selection_movement listContainer m s view text modify =
      s.map (fun r =>
        { start := if modify then r.start else (region_movement m r view text modify).1
          «end» := (region_movement m r view text modify).1
          horiz := (region_movement m r view text modify).2
          affinity := default }) ∧
    (∀ (r : SelRegion) (O p : Nat), r.start = O → r.«end» = O →
      text.prev_grapheme_offset O = some p →
      selection_movement listContainer Movement.Left [r] view text true =
        [{ start := O, «end» := p,
           horiz := some (view.offset_to_line_col text p).2,
           affinity := default }]) := by
  refine ⟨selection_movement_listContainer m s view text modify, ?_⟩
  intro r O p hs he hp
  have hcalc : region_movement Movement.Left r view text true =
      (p, some (view.offset_to_line_col text p).2) := by
    simp only [region_movement]
    rw [if_pos (by simp), he, hp]
    rfl
  rw [selection_movement_listContainer]
  simp [hcalc, hs]

/-- Witness for C6: extending Left from a caret at offset 1 of the one-line
document produces the reversed region [1, 0] with default affinity. -/
theorem C6_region_construction_witness :
    selection_movement listContainer Movement.Left
        [⟨1, 1, none, Affinity.Downstream⟩] (strView abChars 10)
        (strRope abChars) true =
      [⟨1, 0, some 0, Affinity.Downstream⟩] :=
  (C6_region_construction Movement.Left [⟨1, 1, none, Affinity.Downstream⟩]
    (strView abChars 10) (strRope abChars) true).2
    ⟨1, 1, none, Affinity.Downstream⟩ 1 0 rfl rfl (by decide)

/-- Claim C7: RightOfLine returns the document length when the line holding
`region.end` is the document's last line; on any other line it returns the
offset one grapheme before the start of the following line. -/
theorem C7_right_of_line (r : SelRegion) (view : View) (text : Rope)
    (modify : Bool) :
    (view.line_of_offset text text.len ≤ view.line_of_offset text r.«end» →
      (region_movement Movement.RightOfLine r view text modify).1 = text.len) ∧
    (∀ p, view.line_of_offset text r.«end» < view.line_of_offset text text.len →
      text.prev_grapheme_offset
          (view.offset_of_line text (view.line_of_offset text r.«end» + 1)) = some p →
      (region_movement Movement.RightOfLine r view text modify).1 = p) := by
  constructor
  · intro h
    simp only [region_movement, calc_horiz]
    rw [if_neg (Nat.not_lt.mpr h)]
  · intro p h hp
    simp only [region_movement, calc_horiz]
    rw [if_pos h, hp]

/-- Witness for C7: in the two-line document, RightOfLine from offset 2 on
the first line returns offset 5, one grapheme before line 1's start. -/
theorem C7_right_of_line_witness :
    (region_movement Movement.RightOfLine ⟨2, 2, none, Affinity.Downstream⟩
      (strView hwChars 10) (strRope hwChars) false).1 = 5 :=
  (C7_right_of_line ⟨2, 2, none, Affinity.Downstream⟩ (strView hwChars 10)
    (strRope hwChars) false).2 5 (by decide) (by decide)

/-- Claim C8: vertical stickiness — a caret at effective column C on an
interior line l (not first, not last), moved Down then Up with modify false,
returns to its original offset with cached column C, under view contracts
stating that neither step clamped to a document edge: the down step lands on
line l+1 (possibly column-clamped when that line is short) and column C on
line l resolves back to the original offset. -/
theorem C8_vertical_stickiness (r : SelRegion) (view : View) (text : Rope)
    (o l C o₁ : Nat)
    (hrs : r.start = o) (hre : r.«end» = o)
    (hC : vm_col r view text o = C)
    (hl : view.line_of_offset text o = l)
    (hl0 : 0 < l)
    (hlast : l < view.line_of_offset text text.len)
    (hmax : view.line_of_offset text text.len < usizeMax)
    (ho₁ : view.line_col_to_offset text (l + 1) C = o₁)
    (hl₁ : view.line_of_offset text o₁ = l + 1)
    (hrt : view.line_col_to_offset text l C = o) :
    region_movement Movement.Down r view text false = (o₁, some C) ∧
    region_movement Movement.Up ⟨o₁, o₁, some C, Affinity.Downstream⟩ view text false =
      (o, some C) := by
  have hne : o₁ ≠ o := by
    intro hco
    rw [hco, hl] at hl₁
    omega
  constructor
  · show vertical_motion r view text 1 false = (o₁, some C)
    have ha : active_point r 1 false = o := by
      simp [active_point, SelRegion.max, hrs, hre]
    have hu : l + 1 ≤ usizeMax := by omega
    have hsat : saturating_add l (1 : Int).toNat = l + 1 := by
      simp only [saturating_add, Int.toNat_one]
      exact Nat.min_eq_left hu
    have h10 : ¬ (1 : Int) < 0 := by norm_num
    simp only [vertical_motion, ha, hC, hl]
    rw [if_neg (fun hcon => h10 hcon.1)]
    simp only [if_neg h10, hsat]
    rw [if_neg (by omega : ¬ l + 1 > view.line_of_offset text text.len)]
    rw [ho₁, if_neg hne]
  · show vertical_motion ⟨o₁, o₁, some C, Affinity.Downstream⟩ view text (-1) false =
      (o, some C)
    have ha : active_point ⟨o₁, o₁, some C, Affinity.Downstream⟩ (-1) false = o₁ := by
      simp [active_point, SelRegion.min]
    have hcol : vm_col ⟨o₁, o₁, some C, Affinity.Downstream⟩ view text o₁ = C := rfl
    have ht1 : (-(-1 : Int)).toNat = 1 := by decide
    have hm1 : (-1 : Int) < 0 := by norm_num
    simp only [vertical_motion, ha, hcol, hl₁, ht1]
    rw [if_neg (by rintro ⟨-, hcon⟩; omega)]
    simp only [if_pos hm1, Nat.add_sub_cancel]
    rw [if_neg (by omega : ¬ l > view.line_of_offset text text.len)]
    rw [hrt, if_neg (fun hco => hne hco.symm)]

/-- Witness for C8: caret at column 2 of line 1 in the four-line document
whose line 2 is only one character wide; Down clamps the column to offset 9,
Up returns to offset 5 with the cached column 2 intact. -/
theorem C8_vertical_stickiness_witness :
    region_movement Movement.Down ⟨5, 5, some 2, Affinity.Downstream⟩
        (strView stickyChars 10) (strRope stickyChars) false = (9, some 2) ∧
    region_movement Movement.Up ⟨9, 9, some 2, Affinity.Downstream⟩
        (strView stickyChars 10) (strRope stickyChars) false = (5, some 2) :=
  C8_vertical_stickiness ⟨5, 5, some 2, Affinity.Downstream⟩
    (strView stickyChars 10) (strRope stickyChars) 5 1 2 9
    rfl rfl (by decide) (by decide) (by decide) (by decide) (by decide)
    (by decide) (by decide) (by decide)

/-- Claim C9: `scroll_height` is the viewport height less two, at least one;
UpPage and DownPage perform vertical motion by exactly minus/plus that
amount; and on the concrete twenty-line document with viewport height ten,
scroll height is eight and DownPage from column 1 of line 0 lands at column
1 of line 8. -/
theorem C9_page_scroll :
    (∀ view : View,
      1 ≤ scroll_height view ∧
      (3 ≤ view.scroll_height → scroll_height view = (view.scroll_height : Int) - 2) ∧
      (view.scroll_height ≤ 3 → scroll_height view = 1)) ∧
    (∀ (r : SelRegion) (view : View) (text : Rope) (modify : Bool),
      region_movement Movement.UpPage r view text modify =
        vertical_motion r view text (-(scroll_height view)) modify ∧
      region_movement Movement.DownPage r view text modify =
        vertical_motion r view text (scroll_height view) modify) ∧
    (scroll_height (strView page20Chars 10) = 8 ∧
      region_movement Movement.DownPage ⟨1, 1, none, Affinity.Downstream⟩
        (strView page20Chars 10) (strRope page20Chars) false = (25, some 1) ∧
      (strView page20Chars 10).offset_to_line_col (strRope page20Chars) 25 = (8, 1) ∧
      (strView page20Chars 10).offset_to_line_col (strRope page20Chars) 1 = (0, 1)) := by
  refine ⟨?_, fun r view text modify => ⟨rfl, rfl⟩, by decide, by decide, by decide, by decide⟩
  intro view
  refine ⟨le_max_right _ _, ?_, ?_⟩
  · intro h
    exact max_eq_left (by omega)
  · intro h
    exact max_eq_right (by omega)

/-- Witness for C9: the universally quantified parts instantiated on the
two-line demo view. -/
theorem C9_page_scroll_witness :
    region_movement Movement.DownPage ⟨0, 0, none, Affinity.Downstream⟩
        (strView hwChars 10) (strRope hwChars) false =
      vertical_motion ⟨0, 0, none, Affinity.Downstream⟩ (strView hwChars 10)
        (strRope hwChars) (scroll_height (strView hwChars 10)) false :=
  (C9_page_scroll.2.1 ⟨0, 0, none, Affinity.Downstream⟩ (strView hwChars 10)
    (strRope hwChars) false).2

/-- Claim C10: with modify true, the orchestrator can build a reversed
region (start greater than end) — extending Left from a caret at O with an
earlier grapheme boundary p < O — and hands exactly that region, unswapped
and unnormalized, to the container's `add_region`, whatever the container's
ordering discipline. -/
theorem C10_reversed_region (r : SelRegion) (view : View) (text : Rope)
    (O p : Nat) (hs : r.start = O) (he : r.«end» = O)
    (hp : text.prev_grapheme_offset O = some p) (hlt : p < O) :
    ∀ (σ : Type) (c : SelContainer σ),
      selection_movement c Movement.Left [r] view text true =
        c.add_region c.new
          ⟨O, p, some (view.offset_to_line_col text p).2, default⟩ ∧
      p < O := by
  intro σ c
  refine ⟨?_, hlt⟩
  have hcalc : region_movement Movement.Left r view text true =
      (p, some (view.offset_to_line_col text p).2) := by
    simp only [region_movement]
    rw [if_pos (by simp), he, hp]
    rfl
  simp [selection_movement, hcalc, hs]

/-- Witness for C10: the transparent list container receives the reversed
region [1, 0] produced by extending Left from a caret at offset 1. -/
theorem C10_reversed_region_witness :
    (selection_movement listContainer Movement.Left
        [⟨1, 1, some 9, Affinity.Downstream⟩] (strView abChars 10)
        (strRope abChars) true =
      listContainer.add_region listContainer.new
        ⟨1, 0, some ((strView abChars 10).offset_to_line_col (strRope abChars) 0).2,
          default⟩) ∧
    (0 : Nat) < 1 :=
  C10_reversed_region ⟨1, 1, some 9, Affinity.Downstream⟩ (strView abChars 10)
    (strRope abChars) 1 0 rfl rfl (by decide) (by decide)
    (List SelRegion) listContainer
